import Mathlib

/-
Verification of the task-execution engine specified for the
d6tflow-binder-interactive repository.  The repository's source is a
notebook that declares a four-task backtest workflow (GetDataEcon,
TradingSignals, GetDataPx, Backtest) and drives it through the
orchestration engine's run entry point.  The engine itself is not part
of the repository's sources, so its data model and algorithms below are
modelled from the specification; the concrete workflow, its parameters
and its dependency declarations are translated from the notebook.
-/

set_option autoImplicit false
set_option maxRecDepth 8000

namespace D6t

/-- Raw parameter values as supplied by a caller.  A sequence value may
arrive either as a list or as a tuple container; both denote the same
logical value. -/
inductive RawValue where
  | rdate (y m d : Nat)
  | rint (n : Int)
  | rlist (xs : List String)
  | rtuple (xs : List String)
  | rstr (s : String)
  deriving Repr, DecidableEq

/-- A raw parameter assignment: parameter name to raw value. -/
abbrev RawAssign := List (String × RawValue)

/-- Modelled from the spec: the engine's type-specific canonicalization
function for parameter values (dates to calendar-date normal form,
sequences to an order-preserved encoding, scalars to literal encoding).
Two containers holding the same elements encode identically. -/
def canonValue : RawValue → String
  | RawValue.rdate y m d => "date:" ++ toString y ++ "-" ++ toString m ++ "-" ++ toString d
  | RawValue.rint n => "int:" ++ toString n
  | RawValue.rlist xs => "list:" ++ String.intercalate "," xs
  | RawValue.rtuple xs => "list:" ++ String.intercalate "," xs
  | RawValue.rstr s => "str:" ++ s

/-- The canonical form of a raw assignment: every value canonicalized. -/
def canonAssign (raw : RawAssign) : List (String × String) :=
  raw.map (fun q => (q.1, canonValue q.2))

/-- Byte-wise comparison of character lists, used for the total order
over parameter names. -/
def charListLe : List Char → List Char → Bool
  | [], _ => true
  | _ :: _, [] => false
  | a :: as, b :: bs =>
    if a.toNat < b.toNat then true
    else if b.toNat < a.toNat then false
    else charListLe as bs

/-- Total order over parameter names. -/
def strLe (a b : String) : Bool := charListLe a.data b.data

/-- Insertion into a sorted list of names. -/
def insertStr (s : String) : List String → List String
  | [] => [s]
  | t :: ts => if strLe s t then s :: t :: ts else t :: insertStr s ts

/-- Insertion sort over parameter names, giving the spec's total order
over parameter names for the canonical signature. -/
def sortStrs (l : List String) : List String := l.foldr insertStr []

/-- Removes duplicate names (keeping one occurrence of each). -/
def dedupStrs : List String → List String
  | [] => []
  | s :: ss => if s ∈ ss then dedupStrs ss else s :: dedupStrs ss

/-- Modelled from the spec: a TaskKind declares its own parameter specs,
its ordered dependency specs (other kinds it requires) and its declared
named outputs.  The run contract is supplied separately to the executor. -/
structure TaskKind where
  name : String
  ownParams : List String
  deps : List String
  outputs : List String
  deriving Repr, DecidableEq

/-- Modelled from the spec: the task registry consulted by the graph
builder. -/
abbrev Registry := List TaskKind

/-- Looks a kind up by name in the registry. -/
def findKind : Registry → String → Option TaskKind
  | [], _ => none
  | k :: reg, n => if k.name = n then some k else findKind reg n

/-- Modelled from the spec: the full parameter set of a kind is the
union of its own parameters and the parameters inherited from its
(transitive) dependencies; fuel bounds the recursion. -/
def paramsOfAux (reg : Registry) : Nat → String → List String
  | 0, _ => []
  | Nat.succ fuel, n =>
    match findKind reg n with
    | none => []
    | some k => k.ownParams ++ (k.deps.map (fun d => paramsOfAux reg fuel d)).flatten

/-- The canonical (sorted, duplicate-free) full parameter-name set of a
kind. -/
def paramsOf (reg : Registry) (n : String) : List String :=
  sortStrs (dedupStrs (paramsOfAux reg (reg.length + 1) n))

/-- Modelled from the spec: a TaskInstance is a kind bound to concrete
canonical parameter values; equality is over (kind, canonical values),
not object identity. -/
structure TaskInstance where
  kind : String
  assign : List (String × String)
  deriving Repr, DecidableEq

/-- The canonical parameter signature of an instance: a deterministic
encoding of its canonical parameter values; the cache key together with
the kind name. -/
def sigOf (i : TaskInstance) : String :=
  String.intercalate ";" (i.assign.map (fun p => p.1 ++ "=" ++ p.2))

/-- Looks up a raw value by parameter name. -/
def lookupRaw : RawAssign → String → Option RawValue
  | [], _ => none
  | q :: raw, p => if q.1 = p then some q.2 else lookupRaw raw p

/-- Looks up a canonical value by parameter name. -/
def lookupPair : List (String × String) → String → Option String
  | [], _ => none
  | q :: l, p => if q.1 = p then some q.2 else lookupPair l p

/-- Collects an optional result for every element, failing if any
element fails. -/
def optionMapAll (f : String → Option (String × String)) : List String → Option (List (String × String))
  | [] => some []
  | p :: ps =>
    match f p, optionMapAll f ps with
    | some q, some qs => some (q :: qs)
    | _, _ => none

/-- Modelled from the spec: instance construction validates that every
parameter of the kind's full (own plus inherited) parameter set is
supplied, canonicalizes each value, and fails (ParameterError, as none)
if a required parameter is missing. -/
def mkInstance (reg : Registry) (kn : String) (raw : RawAssign) : Option TaskInstance :=
  (optionMapAll (fun p => (lookupRaw raw p).map (fun v => (p, canonValue v))) (paramsOf reg kn)).map
    (fun a => { kind := kn, assign := a })

/-- Instance construction with a dummy fallback for convenience in
concrete statements. -/
def mkInstanceD (reg : Registry) (kn : String) (raw : RawAssign) : TaskInstance :=
  (mkInstance reg kn raw).getD { kind := kn, assign := [] }

/-- Modelled from the spec: the default dependency-parameter derivation
rule passes through identically-named parameters of the parent at
graph-build time. -/
def depInstance (reg : Registry) (i : TaskInstance) (d : String) : TaskInstance :=
  { kind := d, assign := i.assign.filter (fun p => decide (p.1 ∈ paramsOf reg d)) }

/-- The direct dependency instances of an instance, in declaration
order. -/
def directDeps (reg : Registry) (i : TaskInstance) : List TaskInstance :=
  match findKind reg i.kind with
  | none => []
  | some k => k.deps.map (fun d => depInstance reg i d)

/-- Modelled from the spec: graph-time errors. CycleError names the
repeated instance of a dependency cycle; UnknownKind reports a
dependency on an unregistered kind. -/
inductive EngineError where
  | CycleError (i : TaskInstance)
  | UnknownKind (n : String)
  deriving Repr, DecidableEq

/-- Folds a fallible step over a list, stopping at the first error. -/
def exceptFold (f : List TaskInstance → TaskInstance → Except EngineError (List TaskInstance)) :
    List TaskInstance → List TaskInstance → Except EngineError (List TaskInstance)
  | acc, [] => Except.ok acc
  | acc, d :: ds =>
    match f acc d with
    | Except.error e => Except.error e
    | Except.ok acc1 => exceptFold f acc1 ds

/-- Modelled from the spec: the graph builder's recursive expansion of
one instance.  It tracks the expansion path for cycle detection
(failing with CycleError naming the repeated instance), deduplicates
instances already expanded, and emits dependencies before dependents so
the accumulated list is a stable topological order with ties broken by
declaration order. -/
def expandNode (reg : Registry) : Nat → List TaskInstance → List TaskInstance → TaskInstance →
    Except EngineError (List TaskInstance)
  | 0, _, _, i => Except.error (EngineError.CycleError i)
  | Nat.succ fuel, path, acc, i =>
    if i ∈ path then Except.error (EngineError.CycleError i)
    else if i ∈ acc then Except.ok acc
    else
      match findKind reg i.kind with
      | none => Except.error (EngineError.UnknownKind i.kind)
      | some k =>
        match exceptFold (fun a d => expandNode reg fuel (i :: path) a d) acc
            (k.deps.map (fun d => depInstance reg i d)) with
        | Except.error e => Except.error e
        | Except.ok acc2 => Except.ok (acc2 ++ [i])

/-- Modelled from the spec: expand(rootInstance) resolving the
requested instance into a deduplicated DAG given in topological order. -/
def expandTop (reg : Registry) (i : TaskInstance) : Except EngineError (List TaskInstance) :=
  expandNode reg (reg.length + 1) [] [] i

/-- Store keys: (kind name, parameter signature, output name). -/
abbrev StoreKey := String × String × String

/-- Modelled from the spec: the completion store, an opaque persistence
backend keyed by (kind name, parameter signature, output name).
Artifacts are opaque payloads, modelled as natural numbers. -/
abbrev Store := List (StoreKey × Nat)

/-- Looks an artifact up in the store (NotFoundError is modelled as
none). -/
def lookupStore : Store → StoreKey → Option Nat
  | [], _ => none
  | e :: s, key => if e.1 = key then some e.2 else lookupStore s key

/-- Output retrieval: the handle load for one named output of an
instance, callable independently of run. -/
def loadOutput (s : Store) (i : TaskInstance) (o : String) : Option Nat :=
  lookupStore s (i.kind, sigOf i, o)

/-- Looks a named output up in a run contract's returned outputs. -/
def findOut : List (String × Nat) → String → Option Nat
  | [], _ => none
  | p :: ps, o => if p.1 = o then some p.2 else findOut ps o

/-- Modelled from the spec: completion status is derived solely from
whether all of the instance's declared outputs are present in the
completion store. -/
def isComplete (reg : Registry) (s : Store) (i : TaskInstance) : Bool :=
  match findKind reg i.kind with
  | none => false
  | some k => k.outputs.all (fun o => (lookupStore s (i.kind, sigOf i, o)).isSome)

/-- Modelled from the spec: persists every declared output returned by
a run contract, each under (kind name, signature, output name). -/
def saveAll (i : TaskInstance) (outs : List (String × Nat)) : List String → Store → Store
  | [], s => s
  | o :: os, s =>
    match findOut outs o with
    | some v => saveAll i outs os (((i.kind, sigOf i, o), v) :: s)
    | none => saveAll i outs os s

/-- Per-node outcome in the execution report. -/
inductive NodeStatus where
  | skipped
  | executed
  | failed (m : String)
  | notRunDepFailed
  deriving Repr, DecidableEq

/-- The execution report: per node, its identity and outcome. -/
abbrev Report := List (TaskInstance × NodeStatus)

/-- True for outcomes that leave the node complete (already complete,
or freshly executed). -/
def statusGood (st : NodeStatus) : Bool :=
  decide (st = NodeStatus.skipped) || decide (st = NodeStatus.executed)

/-- statusGood on a report entry. -/
def goodStatus (e : TaskInstance × NodeStatus) : Bool := statusGood e.2

/-- Looks the recorded outcome of an instance up in the report. -/
def reportLookup : Report → TaskInstance → Option NodeStatus
  | [], _ => none
  | e :: r, d => if e.1 = d then some e.2 else reportLookup r d

/-- A dependency is satisfied for this pass when the report records it
as confirmed complete (skipped) or freshly executed. -/
def depOk (r : Report) (d : TaskInstance) : Bool :=
  match reportLookup r d with
  | some st => statusGood st
  | none => false

/-- A run contract: from the instance (giving access to its parameter
values) and the loaded outputs of its direct dependencies in
declaration order, to named outputs or a node-scoped failure. -/
abbrev Impl := TaskInstance → List (List (String × Nat)) → Except String (List (String × Nat))

/-- The loaded named outputs of one instance. -/
def loadOutputs (reg : Registry) (s : Store) (d : TaskInstance) : List (String × Nat) :=
  match findKind reg d.kind with
  | none => []
  | some k => k.outputs.filterMap (fun o => (loadOutput s d o).map (fun v => (o, v)))

/-- All direct dependencies confirmed complete or freshly executed in
this pass. -/
def depsReady (reg : Registry) (r : Report) (i : TaskInstance) (k : TaskKind) : Bool :=
  (k.deps.map (fun d => depInstance reg i d)).all (fun d => depOk r d)

/-- The resolved dependency outputs fed to a run contract, positionally
in declaration order. -/
def depInputs (reg : Registry) (s : Store) (i : TaskInstance) (k : TaskKind) : List (List (String × Nat)) :=
  (k.deps.map (fun d => depInstance reg i d)).map (fun d => loadOutputs reg s d)

/-- All declared outputs present in a run contract's result. -/
def outsComplete (k : TaskKind) (outs : List (String × Nat)) : Bool :=
  k.outputs.all (fun o => (findOut outs o).isSome)

/-- Modelled from the spec: the scheduler's treatment of a single node,
in topological order.  A complete node is skipped; a stale node whose
dependencies are all satisfied has its run contract invoked on the
loaded dependency outputs, persisting every declared output on success,
failing the node with MissingOutputError if a declared output is absent
from the contract's result, and recording a contract error as that
node's failure; a stale node with an unsatisfied dependency is reported
as not run because a dependency failed. -/
def execNode (reg : Registry) (impl : Impl) (s : Store) (r : Report) (i : TaskInstance) : Store × Report :=
  if isComplete reg s i then (s, r ++ [(i, NodeStatus.skipped)])
  else
    match findKind reg i.kind with
    | none => (s, r ++ [(i, NodeStatus.failed "UnknownKind")])
    | some k =>
      if depsReady reg r i k then
        match impl i (depInputs reg s i k) with
        | Except.error m => (s, r ++ [(i, NodeStatus.failed m)])
        | Except.ok outs =>
          if outsComplete k outs then
            (saveAll i outs k.outputs s, r ++ [(i, NodeStatus.executed)])
          else (s, r ++ [(i, NodeStatus.failed "MissingOutputError")])
      else (s, r ++ [(i, NodeStatus.notRunDepFailed)])

/-- Modelled from the spec: sequential execution of the expanded DAG in
its topological order. -/
def runFold (reg : Registry) (impl : Impl) : Store → Report → List TaskInstance → Store × Report
  | s, r, [] => (s, r)
  | s, r, n :: ns =>
    runFold reg impl (execNode reg impl s r n).1 (execNode reg impl s r n).2 ns

/-- Modelled from the spec: run(rootInstance).  Builds the DAG (a
graph-time error aborts the whole request before any execution), then
executes the stale subset in topological order and returns the
execution report. -/
def runTop (reg : Registry) (impl : Impl) (s : Store) (x : TaskInstance) : Store × Except EngineError Report :=
  match expandTop reg x with
  | Except.error e => (s, Except.error e)
  | Except.ok ns => ((runFold reg impl s [] ns).1, Except.ok (runFold reg impl s [] ns).2)

/-! ## The concrete workflow of the notebook -/

/-- GetDataEcon: declares date_start and date_end, no dependencies,
single default output. -/
def GetDataEcon : TaskKind :=
  { name := "GetDataEcon", ownParams := ["date_start", "date_end"], deps := [], outputs := ["data"] }

/-- TradingSignals: declares lookback_period and requires GetDataEcon. -/
def TradingSignals : TaskKind :=
  { name := "TradingSignals", ownParams := ["lookback_period"], deps := ["GetDataEcon"], outputs := ["data"] }

/-- GetDataPx: declares symbols and requires GetDataEcon. -/
def GetDataPx : TaskKind :=
  { name := "GetDataPx", ownParams := ["symbols"], deps := ["GetDataEcon"], outputs := ["data"] }

/-- Backtest: requires TradingSignals and GetDataPx, persists the two
named outputs portfolio and pnl. -/
def Backtest : TaskKind :=
  { name := "Backtest", ownParams := [], deps := ["TradingSignals", "GetDataPx"], outputs := ["portfolio", "pnl"] }

/-- The registry of the notebook's four task kinds. -/
def tradingReg : Registry := [GetDataEcon, TradingSignals, GetDataPx, Backtest]

/-- A cheap deterministic fingerprint of a string, standing in for the
opaque numeric payloads of the out-of-scope data sources. -/
def hashStr (s : String) : Nat :=
  s.data.foldl (fun a c => a + c.toNat + 1) (s.data.length + 3)

/-- Reads a parameter's canonical value off an instance, as a run
contract does through attribute access. -/
def pval (i : TaskInstance) (p : String) : String := (lookupPair i.assign p).getD ""

/-- Reads output o of dependency number idx from the positional
dependency inputs. -/
def getOut (inputs : List (List (String × Nat))) (idx : Nat) (o : String) : Option Nat :=
  findOut (inputs.getD idx []) o

/-- Modelled from the spec: the run contracts of the four notebook
tasks.  The numeric computations inside the task bodies (data fetching,
signal generation, backtest arithmetic) are out of scope and stand in
as opaque deterministic functions; what is faithful to the source is
which parameters each contract reads (GetDataPx reads the inherited
date_start and date_end besides its own symbols), which dependency
inputs each reads positionally (Backtest reads input 0 = TradingSignals
and input 1 = GetDataPx), and which named outputs each persists
(Backtest persists portfolio and pnl). -/
def tradingImpl : Impl := fun i inputs =>
  match i.kind with
  | "GetDataEcon" =>
    Except.ok [("data", 100 + hashStr (pval i "date_start") + hashStr (pval i "date_end"))]
  | "TradingSignals" =>
    match getOut inputs 0 "data" with
    | some gdp => Except.ok [("data", gdp + hashStr (pval i "lookback_period"))]
    | none => Except.error "NotFoundError"
  | "GetDataPx" =>
    Except.ok [("data", 200 + hashStr (pval i "symbols") + hashStr (pval i "date_start") + hashStr (pval i "date_end"))]
  | "Backtest" =>
    match getOut inputs 0 "data", getOut inputs 1 "data" with
    | some sigl, some px => Except.ok [("portfolio", px * 1000 + sigl), ("pnl", px * sigl)]
    | _, _ => Except.error "NotFoundError"
  | _ => Except.error "TaskExecutionError"

/-- strategy1 of the notebook. -/
def strategy1 : RawAssign :=
  [("date_start", RawValue.rdate 2018 1 1), ("date_end", RawValue.rdate 2020 1 1),
   ("symbols", RawValue.rlist ["CAT", "WMT"]), ("lookback_period", RawValue.rint 1)]

/-- strategy2 of the notebook: strategy1 with another universe of
symbols. -/
def strategy2 : RawAssign :=
  [("date_start", RawValue.rdate 2018 1 1), ("date_end", RawValue.rdate 2020 1 1),
   ("symbols", RawValue.rlist ["MSFT", "FB"]), ("lookback_period", RawValue.rint 1)]

/-- strategy1 with the symbols supplied in a different container form
(a tuple) holding the same elements. -/
def strategy1t : RawAssign :=
  [("date_start", RawValue.rdate 2018 1 1), ("date_end", RawValue.rdate 2020 1 1),
   ("symbols", RawValue.rtuple ["CAT", "WMT"]), ("lookback_period", RawValue.rint 1)]

/-- The root Backtest instance for strategy1. -/
def iBt1 : TaskInstance := mkInstanceD tradingReg "Backtest" strategy1

/-- The root Backtest instance for strategy2. -/
def iBt2 : TaskInstance := mkInstanceD tradingReg "Backtest" strategy2

/-- The root Backtest instance constructed from the tuple-form
strategy1 assignment. -/
def iBt1t : TaskInstance := mkInstanceD tradingReg "Backtest" strategy1t

/-- The TradingSignals instance derived for strategy1. -/
def iTS1 : TaskInstance := depInstance tradingReg iBt1 "TradingSignals"

/-- The GetDataPx instance derived for strategy1. -/
def iPx1 : TaskInstance := depInstance tradingReg iBt1 "GetDataPx"

/-- The GetDataPx instance derived for strategy2. -/
def iPx2 : TaskInstance := depInstance tradingReg iBt2 "GetDataPx"

/-- The GetDataEcon instance derived for strategy1 (and strategy2). -/
def iEcon1 : TaskInstance := depInstance tradingReg iTS1 "GetDataEcon"

/-- The expanded DAG of the strategy1 root, in topological order. -/
def nodes1 : List TaskInstance := [iEcon1, iTS1, iPx1, iBt1]

/-- The report of the first strategy1 run from an empty store. -/
def rep1 : Report :=
  [(iEcon1, NodeStatus.executed), (iTS1, NodeStatus.executed),
   (iPx1, NodeStatus.executed), (iBt1, NodeStatus.executed)]

/-- The store produced by the first strategy1 run from an empty store. -/
def s1run : Store := (runTop tradingReg tradingImpl [] iBt1).1

/-- s1run with the stored GetDataEcon artifact overwritten by a
different payload: the upstream input changed while every parameter
stayed the same. -/
def s1mut : Store := ((iEcon1.kind, sigOf iEcon1, "data"), 999) :: s1run

/-! ## Instrumentation of the executor -/

/-- The exact condition under which execNode invokes the run contract:
the node is stale, its kind is registered and every direct dependency
is satisfied in the report of this pass. -/
def contractInvoked (reg : Registry) (s : Store) (r : Report) (i : TaskInstance) : Bool :=
  !(isComplete reg s i) &&
    match findKind reg i.kind with
    | none => false
    | some k => depsReady reg r i k

/-- Instruments the executor's pass over the node list: at every step
at which the run contract would be invoked, all direct dependencies of
the node must already be complete in the store of that step. -/
def invocationSound (reg : Registry) (impl : Impl) : Store → Report → List TaskInstance → Bool
  | _, _, [] => true
  | s, r, n :: ns =>
    (!(contractInvoked reg s r n) || (directDeps reg n).all (fun d => isComplete reg s d)) &&
      invocationSound reg impl (execNode reg impl s r n).1 (execNode reg impl s r n).2 ns

/-- Index of the first occurrence of an instance in a node list. -/
def idxOf (x : TaskInstance) : List TaskInstance → Nat
  | [] => 0
  | y :: l => if y = x then 0 else idxOf x l + 1

/-- The invariant established by graph expansion: the accumulator is
extended at the end only, the result has no duplicate instances, no
result node lies on the expansion path, and every newly added node has
all its direct dependencies present at strictly smaller indices. -/
def ExpandPost (reg : Registry) (path acc res : List TaskInstance) : Prop :=
  (∃ t, res = acc ++ t) ∧ res.Nodup ∧ (∀ x ∈ res, x ∉ path) ∧
    (∀ j ∈ res, j ∉ acc → ∀ d ∈ directDeps reg j, d ∈ res ∧ idxOf d res < idxOf j res)

/-- Every report entry recorded as skipped or executed denotes an
instance that is complete in the store. -/
def ReportComplete (reg : Registry) (s : Store) (r : Report) : Prop :=
  ∀ e ∈ r, goodStatus e = true → isComplete reg s e.1 = true

/-! ## Fixtures for failure isolation, cycles and missing outputs -/

/-- A two-branch workflow: LeftFeed and RightFeed independently feed
Root2. -/
def failReg : Registry :=
  [{ name := "LeftFeed", ownParams := [], deps := [], outputs := ["data"] },
   { name := "RightFeed", ownParams := [], deps := [], outputs := ["data"] },
   { name := "Root2", ownParams := [], deps := ["LeftFeed", "RightFeed"], outputs := ["data"] }]

/-- Contracts for the two-branch workflow: the left branch's contract
raises, the others succeed. -/
def failImpl : Impl := fun i _ =>
  match i.kind with
  | "LeftFeed" => Except.error "boom"
  | "RightFeed" => Except.ok [("data", 1)]
  | "Root2" => Except.ok [("data", 2)]
  | _ => Except.error "TaskExecutionError"

/-- The LeftFeed instance. -/
def iL : TaskInstance := { kind := "LeftFeed", assign := [] }

/-- The RightFeed instance. -/
def iR : TaskInstance := { kind := "RightFeed", assign := [] }

/-- The Root2 instance. -/
def iRoot2 : TaskInstance := { kind := "Root2", assign := [] }

/-- The store left by running the two-branch root from an empty store
(only the right branch persisted an output). -/
def sFail : Store := (runTop failReg failImpl [] iRoot2).1

/-- A two-task chain: ChainTop requires ChainBot, whose contract
fails. -/
def chainReg : Registry :=
  [{ name := "ChainBot", ownParams := [], deps := [], outputs := ["data"] },
   { name := "ChainTop", ownParams := [], deps := ["ChainBot"], outputs := ["data"] }]

/-- Contracts for the chain: the bottom task always fails. -/
def chainImpl : Impl := fun i _ =>
  match i.kind with
  | "ChainBot" => Except.error "boom"
  | _ => Except.ok [("data", 3)]

/-- The failing ChainBot instance. -/
def iChainBot : TaskInstance := { kind := "ChainBot", assign := [] }

/-- The dependent ChainTop instance. -/
def iChainTop : TaskInstance := { kind := "ChainTop", assign := [] }

/-- A store in which ChainTop's output is already present but
ChainBot's is not. -/
def chainStore : Store := [((iChainTop.kind, sigOf iChainTop, "data"), 7)]

/-- Transitive dependency between instances: DependsOn reg i j holds
when j is reachable from i through one or more graph-build-time
dependency derivations.  DependsOn reg i i says the instance depends
(transitively) on itself. -/
inductive DependsOn (reg : Registry) : TaskInstance → TaskInstance → Prop where
  | direct {i d : TaskInstance} : d ∈ directDeps reg i → DependsOn reg i d
  | trans {i d j : TaskInstance} : d ∈ directDeps reg i → DependsOn reg d j → DependsOn reg i j

/-- A well-formed registry: every kind name declared as a dependency is
itself registered. -/
def regClosed (reg : Registry) : Bool :=
  reg.all (fun k => k.deps.all (fun d => (findKind reg d).isSome))

/-- A kind whose dependency derivation yields itself. -/
def cycReg : Registry :=
  [{ name := "CycSelf", ownParams := [], deps := ["CycSelf"], outputs := ["data"] }]

/-- The self-dependent instance. -/
def iCyc : TaskInstance := { kind := "CycSelf", assign := [] }

/-- Two kinds forming an indirect dependency cycle: CycA requires CycB
which requires CycA. -/
def cyc2Reg : Registry :=
  [{ name := "CycA", ownParams := [], deps := ["CycB"], outputs := ["data"] },
   { name := "CycB", ownParams := [], deps := ["CycA"], outputs := ["data"] }]

/-- The CycA instance of the indirect cycle. -/
def iCycA : TaskInstance := { kind := "CycA", assign := [] }

/-- The CycB instance of the indirect cycle. -/
def iCycB : TaskInstance := { kind := "CycB", assign := [] }

/-- A contract used where execution must never be reached. -/
def noImpl : Impl := fun _ _ => Except.error "TaskExecutionError"

/-- A kind declaring two outputs. -/
def badReg : Registry :=
  [{ name := "BadTask", ownParams := [], deps := [], outputs := ["a", "b"] }]

/-- A contract that fails to produce the declared output b. -/
def badImpl : Impl := fun _ _ => Except.ok [("a", 1)]

/-- The BadTask instance. -/
def iBad : TaskInstance := { kind := "BadTask", assign := [] }

/-! ## Store lemmas -/

theorem lookupStore_cons_mono (e : StoreKey × Nat) (s : Store) (key : StoreKey)
    (h : (lookupStore s key).isSome = true) : (lookupStore (e :: s) key).isSome = true := by
  by_cases he : e.1 = key <;> simp [lookupStore, he, h]

theorem lookupStore_cons_ne (e : StoreKey × Nat) (s : Store) (key : StoreKey)
    (h : e.1 ≠ key) : lookupStore (e :: s) key = lookupStore s key := by
  simp [lookupStore, h]

theorem saveAll_mono (i : TaskInstance) (outs : List (String × Nat)) :
    ∀ (os : List String) (s : Store) (key : StoreKey),
      (lookupStore s key).isSome = true →
      (lookupStore (saveAll i outs os s) key).isSome = true := by
  intro os
  induction os with
  | nil => intro s key h; simpa [saveAll] using h
  | cons o os ih =>
    intro s key h
    simp only [saveAll]
    cases hf : findOut outs o with
    | none => exact ih s key h
    | some v => exact ih _ key (lookupStore_cons_mono _ s key h)

theorem saveAll_lookup_not_mem (i : TaskInstance) (outs : List (String × Nat)) :
    ∀ (os : List String) (s : Store) (o : String), o ∉ os →
      lookupStore (saveAll i outs os s) (i.kind, sigOf i, o) = lookupStore s (i.kind, sigOf i, o) := by
  intro os
  induction os with
  | nil => intro s o _; simp [saveAll]
  | cons o1 os ih =>
    intro s o ho
    rw [List.mem_cons] at ho
    push_neg at ho
    obtain ⟨h1, h2⟩ := ho
    simp only [saveAll]
    cases hf : findOut outs o1 with
    | none => exact ih s o h2
    | some v =>
      rw [ih _ o h2, lookupStore_cons_ne]
      intro hk
      exact h1 (congrArg (fun p => p.2.2) hk).symm

theorem saveAll_lookup_mem (i : TaskInstance) (outs : List (String × Nat)) :
    ∀ (os : List String) (s : Store) (o : String) (v : Nat), o ∈ os → findOut outs o = some v →
      lookupStore (saveAll i outs os s) (i.kind, sigOf i, o) = some v := by
  intro os
  induction os with
  | nil => intro s o v h _; exact absurd h (List.not_mem_nil o)
  | cons o1 os ih =>
    intro s o v ho hv
    by_cases hmem : o ∈ os
    · simp only [saveAll]
      cases hf : findOut outs o1 with
      | none => exact ih s o v hmem hv
      | some w => exact ih _ o v hmem hv
    · have ho1 : o = o1 := by
        rcases List.mem_cons.mp ho with h | h
        · exact h
        · exact absurd h hmem
      subst ho1
      simp only [saveAll, hv]
      rw [saveAll_lookup_not_mem i outs os _ o hmem]
      simp [lookupStore]

/-! ## Index and list lemmas -/

theorem idxOf_append_left (x : TaskInstance) :
    ∀ (l t : List TaskInstance), x ∈ l → idxOf x (l ++ t) = idxOf x l := by
  intro l
  induction l with
  | nil => intro t h; exact absurd h (List.not_mem_nil x)
  | cons y l ih =>
    intro t h
    by_cases hy : y = x
    · simp [idxOf, hy]
    · have hx : x ∈ l := by
        rcases List.mem_cons.mp h with h1 | h1
        · exact absurd h1.symm hy
        · exact h1
      simp [idxOf, hy, ih t hx]

theorem idxOf_lt_length (x : TaskInstance) :
    ∀ l : List TaskInstance, x ∈ l → idxOf x l < l.length := by
  intro l
  induction l with
  | nil => intro h; exact absurd h (List.not_mem_nil x)
  | cons y l ih =>
    intro h
    by_cases hy : y = x
    · simp [idxOf, hy]
    · have hx : x ∈ l := by
        rcases List.mem_cons.mp h with h1 | h1
        · exact absurd h1.symm hy
        · exact h1
      simp only [idxOf, hy, if_false, List.length_cons]
      exact Nat.succ_lt_succ (ih hx)

theorem idxOf_append_self (x : TaskInstance) :
    ∀ l : List TaskInstance, x ∉ l → idxOf x (l ++ [x]) = l.length := by
  intro l
  induction l with
  | nil => intro _; simp [idxOf]
  | cons y l ih =>
    intro h
    rw [List.mem_cons] at h
    push_neg at h
    obtain ⟨h1, h2⟩ := h
    have hy : y ≠ x := fun hh => h1 hh.symm
    simp [idxOf, hy, ih h2]

theorem nodup_append_single (x : TaskInstance) (l : List TaskInstance)
    (hl : l.Nodup) (hx : x ∉ l) : (l ++ [x]).Nodup := by
  refine List.Nodup.append hl (List.nodup_singleton x) ?_
  intro a ha hax
  rw [List.mem_singleton] at hax
  exact hx (hax ▸ ha)

theorem allCongr {α : Type} (p q : α → Bool) :
    ∀ l : List α, (∀ a, p a = q a) → l.all p = l.all q := by
  intro l h
  induction l with
  | nil => rfl
  | cons a l ih => simp [List.all_cons, h a, ih]

/-! ## Report lemmas -/

theorem reportLookup_mem : ∀ (r : Report) (d : TaskInstance) (st : NodeStatus),
    reportLookup r d = some st → (d, st) ∈ r := by
  intro r
  induction r with
  | nil => intro d st h; simp [reportLookup] at h
  | cons e r ih =>
    intro d st h
    by_cases he : e.1 = d
    · simp only [reportLookup, he, if_pos] at h
      rw [Option.some.injEq] at h
      exact List.mem_cons.mpr (Or.inl (Prod.ext_iff.mpr ⟨he.symm, h.symm⟩))
    · simp only [reportLookup, he, if_neg, if_false] at h
      exact List.mem_cons.mpr (Or.inr (ih d st h))

theorem depOk_spec (r : Report) (d : TaskInstance) (h : depOk r d = true) :
    ∃ st, reportLookup r d = some st ∧ statusGood st = true := by
  unfold depOk at h
  cases hrl : reportLookup r d with
  | none => rw [hrl] at h; simp at h
  | some st => rw [hrl] at h; exact ⟨st, rfl, h⟩

/-! ## Executor shape lemmas -/

theorem execNode_shape (reg : Registry) (impl : Impl) (s : Store) (r : Report) (i : TaskInstance) :
    ∃ st s1, execNode reg impl s r i = (s1, r ++ [(i, st)]) ∧
      ((st = NodeStatus.executed ∧ ∃ k outs, findKind reg i.kind = some k ∧ outsComplete k outs = true ∧
          s1 = saveAll i outs k.outputs s) ∨
       (st ≠ NodeStatus.executed ∧ s1 = s ∧ (st = NodeStatus.skipped → isComplete reg s i = true))) := by
  by_cases hc : isComplete reg s i = true
  · exact ⟨NodeStatus.skipped, s, by simp [execNode, hc], Or.inr ⟨by simp, rfl, fun _ => hc⟩⟩
  · cases hk : findKind reg i.kind with
    | none =>
      exact ⟨NodeStatus.failed "UnknownKind", s, by simp [execNode, hc, hk], Or.inr ⟨by simp, rfl, by simp⟩⟩
    | some k =>
      by_cases hd : depsReady reg r i k = true
      · cases him : impl i (depInputs reg s i k) with
        | error m =>
          exact ⟨NodeStatus.failed m, s, by simp [execNode, hc, hk, hd, him], Or.inr ⟨by simp, rfl, by simp⟩⟩
        | ok outs =>
          by_cases ho : outsComplete k outs = true
          · exact ⟨NodeStatus.executed, saveAll i outs k.outputs s,
              by simp [execNode, hc, hk, hd, him, ho], Or.inl ⟨rfl, k, outs, rfl, ho, rfl⟩⟩
          · exact ⟨NodeStatus.failed "MissingOutputError", s,
              by simp [execNode, hc, hk, hd, him, ho], Or.inr ⟨by simp, rfl, by simp⟩⟩
      · exact ⟨NodeStatus.notRunDepFailed, s, by simp [execNode, hc, hk, hd], Or.inr ⟨by simp, rfl, by simp⟩⟩

theorem execNode_store_mono (reg : Registry) (impl : Impl) (s : Store) (r : Report) (i : TaskInstance)
    (key : StoreKey) (h : (lookupStore s key).isSome = true) :
    (lookupStore (execNode reg impl s r i).1 key).isSome = true := by
  obtain ⟨st, s1, heq, hcase⟩ := execNode_shape reg impl s r i
  rw [heq]
  rcases hcase with ⟨_, k, outs, _, _, hs1⟩ | ⟨_, hs1, _⟩
  · rw [hs1]; exact saveAll_mono i outs k.outputs s key h
  · rw [hs1]; exact h

theorem isComplete_mono (reg : Registry) (s s2 : Store) (i : TaskInstance)
    (hmono : ∀ key, (lookupStore s key).isSome = true → (lookupStore s2 key).isSome = true)
    (h : isComplete reg s i = true) : isComplete reg s2 i = true := by
  cases hk : findKind reg i.kind with
  | none =>
    unfold isComplete at h
    rw [hk] at h
    simp at h
  | some k =>
    unfold isComplete at h ⊢
    rw [hk] at h ⊢
    rw [List.all_eq_true] at h ⊢
    exact fun o ho => hmono _ (h o ho)

theorem saveAll_isComplete (reg : Registry) (i : TaskInstance) (k : TaskKind) (outs : List (String × Nat))
    (hk : findKind reg i.kind = some k) (ho : outsComplete k outs = true) (s : Store) :
    isComplete reg (saveAll i outs k.outputs s) i = true := by
  unfold isComplete
  rw [hk, List.all_eq_true]
  intro o hmem
  unfold outsComplete at ho
  have h1 := List.all_eq_true.mp ho o hmem
  obtain ⟨v, hv⟩ := Option.isSome_iff_exists.mp (by simpa using h1)
  rw [saveAll_lookup_mem i outs k.outputs s o v hmem hv]
  rfl

theorem execNode_good_complete (reg : Registry) (impl : Impl) (s : Store) (r : Report)
    (i : TaskInstance) (s1 : Store) (st : NodeStatus)
    (heq : execNode reg impl s r i = (s1, r ++ [(i, st)]))
    (hst : statusGood st = true) : isComplete reg s1 i = true := by
  obtain ⟨st', s1', heq', hcase⟩ := execNode_shape reg impl s r i
  rw [heq] at heq'
  have hs : s1 = s1' := congrArg Prod.fst heq'
  have hr : r ++ [(i, st)] = r ++ [(i, st')] := congrArg Prod.snd heq'
  have hstst : st = st' := by
    have h2 := List.append_cancel_left hr
    rw [List.cons.injEq] at h2
    exact congrArg Prod.snd h2.1
  rcases hcase with ⟨hex, k, outs, hk, ho, hsave⟩ | ⟨hne, hss, hskip⟩
  · rw [hs, hsave]
    exact saveAll_isComplete reg i k outs hk ho s
  · have hsk : st' = NodeStatus.skipped := by
      rw [hstst] at hst
      unfold statusGood at hst
      rcases Bool.or_eq_true_iff.mp hst with h | h
      · exact of_decide_eq_true h
      · exact absurd (of_decide_eq_true h) hne
    rw [hs, hss]
    exact hskip hsk

/-! ## Fold lemmas for the executor -/

theorem runFold_report_extends (reg : Registry) (impl : Impl) :
    ∀ (ns : List TaskInstance) (s : Store) (r : Report), ∃ t, (runFold reg impl s r ns).2 = r ++ t := by
  intro ns
  induction ns with
  | nil => intro s r; exact ⟨[], by simp [runFold]⟩
  | cons n ns ih =>
    intro s r
    obtain ⟨st, s1, heq, _⟩ := execNode_shape reg impl s r n
    obtain ⟨t, ht⟩ := ih s1 (r ++ [(n, st)])
    refine ⟨(n, st) :: t, ?_⟩
    simp only [runFold, heq]
    rw [ht]
    simp

theorem runFold_keys (reg : Registry) (impl : Impl) :
    ∀ (ns : List TaskInstance) (s : Store) (r : Report),
      ((runFold reg impl s r ns).2).map Prod.fst = r.map Prod.fst ++ ns := by
  intro ns
  induction ns with
  | nil => intro s r; simp [runFold]
  | cons n ns ih =>
    intro s r
    obtain ⟨st, s1, heq, _⟩ := execNode_shape reg impl s r n
    simp only [runFold, heq]
    rw [ih s1 (r ++ [(n, st)])]
    simp

theorem runFold_store_mono (reg : Registry) (impl : Impl) :
    ∀ (ns : List TaskInstance) (s : Store) (r : Report) (key : StoreKey),
      (lookupStore s key).isSome = true →
      (lookupStore (runFold reg impl s r ns).1 key).isSome = true := by
  intro ns
  induction ns with
  | nil => intro s r key h; simpa [runFold] using h
  | cons n ns ih =>
    intro s r key h
    simp only [runFold]
    exact ih _ _ key (execNode_store_mono reg impl s r n key h)

theorem execNode_reportComplete (reg : Registry) (impl : Impl) (s : Store) (r : Report)
    (i : TaskInstance) (h : ReportComplete reg s r) :
    ReportComplete reg (execNode reg impl s r i).1 (execNode reg impl s r i).2 := by
  obtain ⟨st, s1, heq, hcase⟩ := execNode_shape reg impl s r i
  rw [heq]
  intro e he hg
  rcases List.mem_append.mp he with hmem | hmem
  · have h0 := h e hmem hg
    refine isComplete_mono reg s s1 e.1 ?_ h0
    intro key hkey
    have h1 := execNode_store_mono reg impl s r i key hkey
    rw [heq] at h1
    exact h1
  · rw [List.mem_singleton] at hmem
    subst hmem
    exact execNode_good_complete reg impl s r i s1 st heq hg

theorem runFold_complete (reg : Registry) (impl : Impl) :
    ∀ (ns : List TaskInstance) (s : Store) (r : Report),
      ((runFold reg impl s r ns).2).all goodStatus = true →
      ∀ n ∈ ns, isComplete reg (runFold reg impl s r ns).1 n = true := by
  intro ns
  induction ns with
  | nil => intro s r _ n hn; exact absurd hn (List.not_mem_nil n)
  | cons m ns ih =>
    intro s r hall n hn
    obtain ⟨st, s1, heq, _⟩ := execNode_shape reg impl s r m
    simp only [runFold, heq] at hall ⊢
    rcases List.mem_cons.mp hn with hn1 | hn1
    · subst hn1
      have hgood : goodStatus (n, st) = true := by
        obtain ⟨t, ht⟩ := runFold_report_extends reg impl ns s1 (r ++ [(n, st)])
        have hmem : (n, st) ∈ (runFold reg impl s1 (r ++ [(n, st)]) ns).2 := by
          rw [ht]; simp
        exact List.all_eq_true.mp hall _ hmem
      have h1 : isComplete reg s1 n = true := execNode_good_complete reg impl s r n s1 st heq hgood
      refine isComplete_mono reg s1 _ n ?_ h1
      intro key hkey
      exact runFold_store_mono reg impl ns s1 (r ++ [(n, st)]) key hkey
    · exact ih s1 (r ++ [(m, st)]) hall n hn1

theorem runFold_skip_all (reg : Registry) (impl : Impl) :
    ∀ (ns : List TaskInstance) (s : Store) (r : Report),
      (∀ n ∈ ns, isComplete reg s n = true) →
      runFold reg impl s r ns = (s, r ++ ns.map (fun n => (n, NodeStatus.skipped))) := by
  intro ns
  induction ns with
  | nil => intro s r _; simp [runFold]
  | cons m ns ih =>
    intro s r h
    have hm := h m (List.mem_cons_self m ns)
    have hexec : execNode reg impl s r m = (s, r ++ [(m, NodeStatus.skipped)]) := by
      simp [execNode, hm]
    simp only [runFold, hexec]
    rw [ih s (r ++ [(m, NodeStatus.skipped)]) (fun n hn => h n (List.mem_cons_of_mem m hn))]
    simp

/-! ## Expansion invariants -/

theorem expandNode_mem (reg : Registry) :
    ∀ (fuel : Nat) (path acc : List TaskInstance) (i : TaskInstance) (res : List TaskInstance),
      expandNode reg fuel path acc i = Except.ok res → i ∈ res := by
  intro fuel path acc i res h
  cases fuel with
  | zero => simp [expandNode] at h
  | succ f =>
    by_cases hp : i ∈ path
    · simp [expandNode, hp] at h
    · by_cases ha : i ∈ acc
      · simp [expandNode, hp, ha] at h
        rw [← h]
        exact ha
      · cases hk : findKind reg i.kind with
        | none => simp [expandNode, hp, ha, hk] at h
        | some k =>
          simp only [expandNode, if_neg hp, if_neg ha, hk] at h
          cases hf : exceptFold (fun a d => expandNode reg f (i :: path) a d) acc
              (k.deps.map (fun d => depInstance reg i d)) with
          | error e => rw [hf] at h; simp at h
          | ok acc2 =>
            rw [hf] at h
            simp only [Except.ok.injEq] at h
            rw [← h]
            simp

theorem expandNode_post (reg : Registry) :
    ∀ (fuel : Nat) (path acc : List TaskInstance) (i : TaskInstance) (res : List TaskInstance),
      expandNode reg fuel path acc i = Except.ok res →
      acc.Nodup → (∀ x ∈ acc, x ∉ path) → ExpandPost reg path acc res := by
  intro fuel
  induction fuel with
  | zero => intro path acc i res h _ _; simp [expandNode] at h
  | succ f ih =>
    have fold : ∀ (ds : List TaskInstance) (path acc res : List TaskInstance),
        exceptFold (fun a d => expandNode reg f path a d) acc ds = Except.ok res →
        acc.Nodup → (∀ x ∈ acc, x ∉ path) →
        ExpandPost reg path acc res ∧ ∀ d ∈ ds, d ∈ res := by
      intro ds
      induction ds with
      | nil =>
        intro path acc res h hnd hpath
        simp only [exceptFold, Except.ok.injEq] at h
        subst h
        exact ⟨⟨⟨[], by simp⟩, hnd, hpath, fun j hj hja => absurd hj hja⟩,
          fun d hd => absurd hd (List.not_mem_nil d)⟩
      | cons d ds ihds =>
        intro path acc res h hnd hpath
        simp only [exceptFold] at h
        cases hd : expandNode reg f path acc d with
        | error e => rw [hd] at h; simp at h
        | ok acc1 =>
          rw [hd] at h
          simp only [] at h
          obtain ⟨⟨t1, ht1⟩, hnd1, hpath1, hnew1⟩ := ih path acc d acc1 hd hnd hpath
          obtain ⟨⟨⟨t2, ht2⟩, hnd2, hpath2, hnew2⟩, hds2⟩ := ihds path acc1 res h hnd1 hpath1
          constructor
          · refine ⟨⟨t1 ++ t2, by rw [ht2, ht1, List.append_assoc]⟩, hnd2, hpath2, ?_⟩
            intro j hj hja
            by_cases hj1 : j ∈ acc1
            · intro dd hdd
              obtain ⟨hmem, hidx⟩ := hnew1 j hj1 hja dd hdd
              refine ⟨ht2 ▸ List.mem_append.mpr (Or.inl hmem), ?_⟩
              rw [ht2, idxOf_append_left dd acc1 t2 hmem, idxOf_append_left j acc1 t2 hj1]
              exact hidx
            · exact hnew2 j hj hj1
          · intro d2 hd2
            rcases List.mem_cons.mp hd2 with h2 | h2
            · subst h2
              have hdm : d2 ∈ acc1 := expandNode_mem reg f path acc d2 acc1 hd
              rw [ht2]
              exact List.mem_append.mpr (Or.inl hdm)
            · exact hds2 d2 h2
    intro path acc i res h hnd hpath
    by_cases hp : i ∈ path
    · simp [expandNode, hp] at h
    · by_cases ha : i ∈ acc
      · simp only [expandNode, if_neg hp, if_pos ha, Except.ok.injEq] at h
        subst h
        exact ⟨⟨[], by simp⟩, hnd, hpath, fun j hj hja => absurd hj hja⟩
      · cases hk : findKind reg i.kind with
        | none => simp [expandNode, hp, ha, hk] at h
        | some k =>
          simp only [expandNode, if_neg hp, if_neg ha, hk] at h
          cases hf : exceptFold (fun a d => expandNode reg f (i :: path) a d) acc
              (k.deps.map (fun d => depInstance reg i d)) with
          | error e => rw [hf] at h; simp at h
          | ok acc2 =>
            rw [hf] at h
            simp only [Except.ok.injEq] at h
            have haccpath : ∀ x ∈ acc, x ∉ i :: path := by
              intro x hx
              rw [List.mem_cons]
              push_neg
              exact ⟨fun hxi => ha (hxi ▸ hx), hpath x hx⟩
            obtain ⟨⟨⟨t2, ht2⟩, hnd2, hpath2, hnew2⟩, hds2⟩ :=
              fold (k.deps.map (fun d => depInstance reg i d)) (i :: path) acc acc2 hf hnd haccpath
            have hinacc2 : i ∉ acc2 := fun hin => (hpath2 i hin) (List.mem_cons_self i path)
            subst h
            refine ⟨⟨t2 ++ [i], by rw [ht2, List.append_assoc]⟩,
              nodup_append_single i acc2 hnd2 hinacc2, ?_, ?_⟩
            · intro x hx
              rcases List.mem_append.mp hx with hx1 | hx1
              · exact fun hxp => (hpath2 x hx1) (List.mem_cons_of_mem i hxp)
              · rw [List.mem_singleton] at hx1
                subst hx1
                exact hp
            · intro j hj hja
              rcases List.mem_append.mp hj with hj1 | hj1
              · intro dd hdd
                obtain ⟨hmem, hidx⟩ := hnew2 j hj1 hja dd hdd
                refine ⟨List.mem_append.mpr (Or.inl hmem), ?_⟩
                rw [idxOf_append_left dd acc2 [i] hmem, idxOf_append_left j acc2 [i] hj1]
                exact hidx
              · rw [List.mem_singleton] at hj1
                subst hj1
                intro dd hdd
                have hdd2 : dd ∈ k.deps.map (fun d => depInstance reg j d) := by
                  simp only [directDeps, hk] at hdd
                  exact hdd
                have hdm : dd ∈ acc2 := hds2 dd hdd2
                refine ⟨List.mem_append.mpr (Or.inl hdm), ?_⟩
                rw [idxOf_append_left dd acc2 [j] hdm, idxOf_append_self j acc2 hinacc2]
                exact idxOf_lt_length dd acc2 hdm

theorem expandTop_post (reg : Registry) (x : TaskInstance) (ns : List TaskInstance)
    (h : expandTop reg x = Except.ok ns) :
    ns.Nodup ∧ ∀ j ∈ ns, ∀ d ∈ directDeps reg j, d ∈ ns ∧ idxOf d ns < idxOf j ns := by
  obtain ⟨_, hnd, _, hnew⟩ :=
    expandNode_post reg (reg.length + 1) [] [] x ns h List.nodup_nil (by simp)
  exact ⟨hnd, fun j hj => hnew j hj (List.not_mem_nil j)⟩

theorem runTop_ok (reg : Registry) (impl : Impl) (s : Store) (x : TaskInstance)
    (ns : List TaskInstance) (h : expandTop reg x = Except.ok ns) :
    runTop reg impl s x = ((runFold reg impl s [] ns).1, Except.ok ((runFold reg impl s [] ns).2)) := by
  unfold runTop
  rw [h]

theorem runTop_err (reg : Registry) (impl : Impl) (s : Store) (x : TaskInstance)
    (e : EngineError) (h : expandTop reg x = Except.error e) :
    runTop reg impl s x = (s, Except.error e) := by
  unfold runTop
  rw [h]

theorem findKind_mem : ∀ (reg : Registry) (n : String) (k : TaskKind),
    findKind reg n = some k → k ∈ reg := by
  intro reg
  induction reg with
  | nil => intro n k h; simp [findKind] at h
  | cons k0 reg ih =>
    intro n k h
    by_cases h0 : k0.name = n
    · simp only [findKind, if_pos h0, Option.some.injEq] at h
      exact List.mem_cons.mpr (Or.inl h.symm)
    · simp only [findKind, if_neg h0] at h
      exact List.mem_cons.mpr (Or.inr (ih n k h))

theorem expandTop_reaches (reg : Registry) (x : TaskInstance) (ns : List TaskInstance)
    (h : expandTop reg x = Except.ok ns) :
    ∀ j d, DependsOn reg j d → j ∈ ns → d ∈ ns ∧ idxOf d ns < idxOf j ns := by
  intro j d hdep
  induction hdep with
  | direct hd =>
    intro hj
    exact (expandTop_post reg x ns h).2 _ hj _ hd
  | trans hd _ ih =>
    intro hj
    obtain ⟨hdm, hlt⟩ := (expandTop_post reg x ns h).2 _ hj _ hd
    obtain ⟨hjm, hlt2⟩ := ih hdm
    exact ⟨hjm, Nat.lt_trans hlt2 hlt⟩

theorem expandTop_acyclic (reg : Registry) (x : TaskInstance) (ns : List TaskInstance)
    (h : expandTop reg x = Except.ok ns) : ∀ j ∈ ns, ¬ DependsOn reg j j :=
  fun j hj hdep =>
    absurd (expandTop_reaches reg x ns h j j hdep hj).2 (Nat.lt_irrefl _)

theorem expandNode_err_cycle (reg : Registry) (hclosed : regClosed reg = true) :
    ∀ (fuel : Nat) (path acc : List TaskInstance) (i : TaskInstance) (e : EngineError),
      expandNode reg fuel path acc i = Except.error e →
      (findKind reg i.kind).isSome = true →
      ∃ w, e = EngineError.CycleError w := by
  intro fuel
  induction fuel with
  | zero =>
    intro path acc i e h _
    have h2 : Except.error (EngineError.CycleError i) =
        (Except.error e : Except EngineError (List TaskInstance)) := h
    exact ⟨i, (Except.error.inj h2).symm⟩
  | succ f ih =>
    have fold : ∀ (ds : List TaskInstance) (path acc : List TaskInstance) (e : EngineError),
        exceptFold (fun a d => expandNode reg f path a d) acc ds = Except.error e →
        (∀ d ∈ ds, (findKind reg d.kind).isSome = true) →
        ∃ w, e = EngineError.CycleError w := by
      intro ds
      induction ds with
      | nil => intro path acc e h _; simp [exceptFold] at h
      | cons d ds ihds =>
        intro path acc e h hkinds
        simp only [exceptFold] at h
        cases hd : expandNode reg f path acc d with
        | error e2 =>
          rw [hd] at h
          simp only [Except.error.injEq] at h
          obtain ⟨w, hw⟩ := ih path acc d e2 hd (hkinds d (List.mem_cons_self d ds))
          exact ⟨w, h ▸ hw⟩
        | ok acc1 =>
          rw [hd] at h
          exact ihds path acc1 e h (fun d2 hd2 => hkinds d2 (List.mem_cons_of_mem d hd2))
    intro path acc i e h hreg
    by_cases hp : i ∈ path
    · simp only [expandNode, if_pos hp, Except.error.injEq] at h
      exact ⟨i, h.symm⟩
    · by_cases ha : i ∈ acc
      · simp [expandNode, if_neg hp, if_pos ha] at h
      · cases hk : findKind reg i.kind with
        | none => rw [hk] at hreg; simp at hreg
        | some k =>
          simp only [expandNode, if_neg hp, if_neg ha, hk] at h
          cases hf : exceptFold (fun a d => expandNode reg f (i :: path) a d) acc
              (k.deps.map (fun d => depInstance reg i d)) with
          | error e2 =>
            rw [hf] at h
            simp only [Except.error.injEq] at h
            have hkinds : ∀ d2 ∈ k.deps.map (fun d => depInstance reg i d),
                (findKind reg d2.kind).isSome = true := by
              intro d2 hd2
              rw [List.mem_map] at hd2
              obtain ⟨dn, hdn, hdi⟩ := hd2
              have hkmem : k ∈ reg := findKind_mem reg i.kind k hk
              unfold regClosed at hclosed
              have hcl1 := List.all_eq_true.mp hclosed k hkmem
              have hcl2 := List.all_eq_true.mp hcl1 dn hdn
              rw [← hdi]
              exact hcl2
            obtain ⟨w, hw⟩ := fold _ (i :: path) acc e2 hf hkinds
            exact ⟨w, h ▸ hw⟩
          | ok acc2 =>
            rw [hf] at h
            simp at h

/-! ## Invocation soundness and node-failure lemmas -/

theorem invocationSound_of (reg : Registry) (impl : Impl) :
    ∀ (ns : List TaskInstance) (s : Store) (r : Report),
      ReportComplete reg s r → invocationSound reg impl s r ns = true := by
  intro ns
  induction ns with
  | nil => intro s r _; simp [invocationSound]
  | cons n ns ih =>
    intro s r h
    simp only [invocationSound, Bool.and_eq_true]
    constructor
    · by_cases hinv : contractInvoked reg s r n = true
      · simp only [hinv, Bool.not_true, Bool.false_or]
        rw [List.all_eq_true]
        intro d hd
        unfold contractInvoked at hinv
        rw [Bool.and_eq_true] at hinv
        obtain ⟨h1, h2⟩ := hinv
        cases hk : findKind reg n.kind with
        | none => rw [hk] at h2; simp at h2
        | some k =>
          rw [hk] at h2
          simp only [directDeps, hk] at hd
          have hdok : depOk r d = true := by
            unfold depsReady at h2
            exact List.all_eq_true.mp h2 d hd
          obtain ⟨st, hrl, hgood⟩ := depOk_spec r d hdok
          exact h (d, st) (reportLookup_mem r d st hrl) hgood
      · rw [Bool.not_eq_true] at hinv
        simp [hinv]
    · exact ih _ _ (execNode_reportComplete reg impl s r n h)

theorem execNode_depFailed (reg : Registry) (impl : Impl) (s : Store) (r : Report)
    (i : TaskInstance) (k : TaskKind)
    (hc : isComplete reg s i = false) (hk : findKind reg i.kind = some k)
    (hd : depsReady reg r i k = false) :
    execNode reg impl s r i = (s, r ++ [(i, NodeStatus.notRunDepFailed)]) := by
  simp [execNode, hc, hk, hd]

theorem execNode_missingOutput (reg : Registry) (impl : Impl) (s : Store) (r : Report)
    (i : TaskInstance) (k : TaskKind) (outs : List (String × Nat))
    (hc : isComplete reg s i = false) (hk : findKind reg i.kind = some k)
    (hd : depsReady reg r i k = true) (him : impl i (depInputs reg s i k) = Except.ok outs)
    (ho : outsComplete k outs = false) :
    execNode reg impl s r i = (s, r ++ [(i, NodeStatus.failed "MissingOutputError")]) := by
  simp [execNode, hc, hk, hd, him, ho]

/-! ## Canonicalization lemmas -/

theorem lookupRaw_canon : ∀ (raw : RawAssign) (p : String),
    (lookupRaw raw p).map canonValue = lookupPair (canonAssign raw) p := by
  intro raw
  induction raw with
  | nil => intro p; simp [lookupRaw, canonAssign, lookupPair]
  | cons q raw ih =>
    intro p
    by_cases hq : q.1 = p
    · simp [lookupRaw, canonAssign, lookupPair, hq]
    · simp [lookupRaw, canonAssign, lookupPair, hq, ih p]

theorem optionMapAll_congr (f g : String → Option (String × String))
    (h : ∀ p, f p = g p) : ∀ ps, optionMapAll f ps = optionMapAll g ps := by
  intro ps
  induction ps with
  | nil => rfl
  | cons p ps ih => simp [optionMapAll, h p, ih]

theorem mkInstance_canon (reg : Registry) (kn : String) (raw1 raw2 : RawAssign)
    (h : canonAssign raw1 = canonAssign raw2) :
    mkInstance reg kn raw1 = mkInstance reg kn raw2 := by
  unfold mkInstance
  congr 1
  apply optionMapAll_congr
  intro p
  have h1 := lookupRaw_canon raw1 p
  have h2 := lookupRaw_canon raw2 p
  rw [h] at h1
  have h3 : (lookupRaw raw1 p).map canonValue = (lookupRaw raw2 p).map canonValue :=
    h1.trans h2.symm
  cases hv1 : lookupRaw raw1 p with
  | none =>
    cases hv2 : lookupRaw raw2 p with
    | none => simp
    | some v2 => rw [hv1, hv2] at h3; simp at h3
  | some v1 =>
    cases hv2 : lookupRaw raw2 p with
    | none => rw [hv1, hv2] at h3; simp at h3
    | some v2 =>
      rw [hv1, hv2] at h3
      simp only [Option.map_some'] at h3
      rw [Option.some.injEq] at h3
      simp [h3]

/-! ## The claims -/

/-- Claim C1: for the notebook's four-task diamond (GetDataEcon as A,
TradingSignals as B, GetDataPx as C, Backtest as Root), after a
completed run of the strategy1 root, running the strategy2 root (same
assignment except symbols) executes exactly the two instances whose
signatures changed (GetDataPx and Backtest) and reuses the existing
GetDataEcon and TradingSignals outputs, which are reported skipped. -/
theorem claimC1 :
    runTop tradingReg tradingImpl [] iBt1 =
      (s1run, Except.ok [(iEcon1, NodeStatus.executed), (iTS1, NodeStatus.executed),
        (iPx1, NodeStatus.executed), (iBt1, NodeStatus.executed)]) ∧
    (runTop tradingReg tradingImpl s1run iBt2).2 =
      Except.ok [(iEcon1, NodeStatus.skipped), (iTS1, NodeStatus.skipped),
        (iPx2, NodeStatus.executed), (iBt2, NodeStatus.executed)] :=
  ⟨rfl, rfl⟩

/-- Claim C2: if run(x) completes with every node skipped or executed
and the store is not mutated in between, a second run(x) leaves the
store unchanged and reports every node of the expanded DAG as skipped,
executing nothing. -/
theorem claimC2 (reg : Registry) (impl : Impl) (s s1 : Store) (x : TaskInstance) (rep : Report)
    (h : runTop reg impl s x = (s1, Except.ok rep))
    (hok : rep.all goodStatus = true) :
    runTop reg impl s1 x = (s1, Except.ok (rep.map (fun e => (e.1, NodeStatus.skipped)))) := by
  cases he : expandTop reg x with
  | error e =>
    rw [runTop_err reg impl s x e he] at h
    exact absurd (congrArg Prod.snd h) (by simp)
  | ok ns =>
    have h2 := (runTop_ok reg impl s x ns he).symm.trans h
    have hs1 : (runFold reg impl s [] ns).1 = s1 := congrArg Prod.fst h2
    have hrep : (runFold reg impl s [] ns).2 = rep := by
      have h3 := congrArg Prod.snd h2
      simpa using h3
    have hall : ∀ n ∈ ns, isComplete reg s1 n = true := by
      have h3 := runFold_complete reg impl ns s [] (by rw [hrep]; exact hok)
      rw [hs1] at h3
      exact h3
    have hkeys : rep.map Prod.fst = ns := by
      rw [← hrep, runFold_keys reg impl ns s []]
      simp
    rw [runTop_ok reg impl s1 x ns he, runFold_skip_all reg impl ns s1 [] hall, ← hkeys]
    simp [List.map_map, Function.comp]

/-- Witness for claim C2: rerunning the strategy1 root on the store its
first run produced reports all four nodes skipped and leaves the store
unchanged. -/
theorem claimC2_witness :
    runTop tradingReg tradingImpl s1run iBt1 =
      (s1run, Except.ok (rep1.map (fun e => (e.1, NodeStatus.skipped)))) :=
  claimC2 tradingReg tradingImpl [] s1run iBt1 rep1 rfl (by decide)

/-- Claim C3: value-equal parameter assignments canonicalize to
identical instances (hence identical signatures) regardless of the
container form of each value; concretely, the tuple-form strategy1
yields the same Backtest instance, run followed by load on the
separately constructed instance returns the stored pnl artifact, and
rerunning it executes nothing. -/
theorem claimC3 :
    (∀ (reg : Registry) (kn : String) (raw1 raw2 : RawAssign),
        canonAssign raw1 = canonAssign raw2 →
        mkInstance reg kn raw1 = mkInstance reg kn raw2) ∧
    mkInstance tradingReg "Backtest" strategy1t = mkInstance tradingReg "Backtest" strategy1 ∧
    iBt1t = iBt1 ∧
    loadOutput s1run iBt1t "pnl" = loadOutput s1run iBt1 "pnl" ∧
    (loadOutput s1run iBt1t "pnl").isSome = true ∧
    (runTop tradingReg tradingImpl s1run iBt1t).2 =
      Except.ok [(iEcon1, NodeStatus.skipped), (iTS1, NodeStatus.skipped),
        (iPx1, NodeStatus.skipped), (iBt1, NodeStatus.skipped)] :=
  ⟨mkInstance_canon, rfl, rfl, rfl, rfl, rfl⟩

/-- Witness for claim C3: the tuple-form and list-form strategy1
assignments construct the same Backtest instance. -/
theorem claimC3_witness :
    mkInstance tradingReg "Backtest" strategy1t = mkInstance tradingReg "Backtest" strategy1 :=
  claimC3.1 tradingReg "Backtest" strategy1t strategy1 (by decide)

/-- Claim C4: graph expansion deduplicates instances, so any two
dependency paths reaching the same (kind, signature) share one node and
each node gets at most one report entry per run; concretely the
Backtest diamond, whose two branches both require the same GetDataEcon
instance, expands to a DAG containing it exactly once. -/
theorem claimC4 :
    (∀ (reg : Registry) (x : TaskInstance) (ns : List TaskInstance),
        expandTop reg x = Except.ok ns → ns.Nodup) ∧
    (∀ (reg : Registry) (impl : Impl) (s : Store) (x : TaskInstance) (ns : List TaskInstance)
        (s1 : Store) (rep : Report),
        expandTop reg x = Except.ok ns → runTop reg impl s x = (s1, Except.ok rep) →
        rep.map Prod.fst = ns ∧ (rep.map Prod.fst).Nodup) ∧
    expandTop tradingReg iBt1 = Except.ok nodes1 ∧
    directDeps tradingReg iTS1 = [iEcon1] ∧
    directDeps tradingReg iPx1 = [iEcon1] ∧
    (nodes1.map (fun i => (i.kind, sigOf i))).Nodup := by
  refine ⟨?_, ?_, rfl, rfl, rfl, by decide⟩
  · intro reg x ns h
    exact (expandTop_post reg x ns h).1
  · intro reg impl s x ns s1 rep he hr
    rw [runTop_ok reg impl s x ns he] at hr
    have hrep : (runFold reg impl s [] ns).2 = rep := by
      have h2 := congrArg Prod.snd hr
      simpa using h2
    have hkeys : rep.map Prod.fst = ns := by
      rw [← hrep, runFold_keys reg impl ns s []]
      simp
    exact ⟨hkeys, hkeys ▸ (expandTop_post reg x ns he).1⟩

/-- Witness for claim C4: the strategy1 DAG has no duplicate node and
its run report carries exactly those nodes. -/
theorem claimC4_witness : nodes1.Nodup ∧ rep1.map Prod.fst = nodes1 :=
  ⟨claimC4.1 tradingReg iBt1 nodes1 rfl,
   (claimC4.2.1 tradingReg tradingImpl [] iBt1 nodes1 s1run rep1 rfl rfl).1⟩

/-- Claim C5: during any run pass, a run contract is invoked only when
every direct dependency of the node is complete in the store of that
step (confirmed complete or freshly executed earlier in the pass); a
node already complete is skipped, never executed; the expanded DAG
places every direct dependency at a strictly smaller index than its
dependent; and the run report walks exactly that topological order. -/
theorem claimC5 :
    (∀ (reg : Registry) (impl : Impl) (s : Store) (ns : List TaskInstance),
        invocationSound reg impl s [] ns = true) ∧
    (∀ (reg : Registry) (impl : Impl) (s : Store) (r : Report) (i : TaskInstance),
        isComplete reg s i = true →
        execNode reg impl s r i = (s, r ++ [(i, NodeStatus.skipped)])) ∧
    (∀ (reg : Registry) (x : TaskInstance) (ns : List TaskInstance),
        expandTop reg x = Except.ok ns →
        ∀ i ∈ ns, ∀ d ∈ directDeps reg i, idxOf d ns < idxOf i ns) ∧
    (∀ (reg : Registry) (impl : Impl) (s : Store) (x : TaskInstance) (ns : List TaskInstance)
        (s1 : Store) (rep : Report),
        expandTop reg x = Except.ok ns → runTop reg impl s x = (s1, Except.ok rep) →
        rep.map Prod.fst = ns) := by
  refine ⟨?_, ?_, ?_, ?_⟩
  · intro reg impl s ns
    exact invocationSound_of reg impl ns s [] (fun e he _ => absurd he (List.not_mem_nil e))
  · intro reg impl s r i h
    simp [execNode, h]
  · intro reg x ns h i hi d hd
    exact ((expandTop_post reg x ns h).2 i hi d hd).2
  · intro reg impl s x ns s1 rep he hr
    have h2 := (runTop_ok reg impl s x ns he).symm.trans hr
    have hrep : (runFold reg impl s [] ns).2 = rep := by
      have h3 := congrArg Prod.snd h2
      simpa using h3
    rw [← hrep, runFold_keys reg impl ns s []]
    simp

/-- Witness for claim C5: a complete node is skipped with the store
untouched, the DAG orders GetDataEcon before TradingSignals, and the
strategy1 report walks the DAG's order. -/
theorem claimC5_witness :
    execNode tradingReg tradingImpl s1run [] iEcon1 = (s1run, [] ++ [(iEcon1, NodeStatus.skipped)]) ∧
    idxOf iEcon1 nodes1 < idxOf iTS1 nodes1 ∧
    rep1.map Prod.fst = nodes1 :=
  ⟨claimC5.2.1 tradingReg tradingImpl s1run [] iEcon1 (by decide),
   claimC5.2.2.1 tradingReg iBt1 nodes1 rfl iTS1 (by decide) iEcon1 (by decide),
   claimC5.2.2.2 tradingReg tradingImpl [] iBt1 nodes1 s1run rep1 rfl rfl⟩

/-- Claim C6 (amended): when a run contract fails, every stale node one
of whose direct dependencies is not recorded complete-or-executed is
itself not executed and is reported not-run-dependency-failed — so the
failure halts execution along any chain of stale dependents — while a
dependency recorded as failed is never treated as satisfied,
independent branches still execute, and the per-node report is produced
for the whole DAG; however a transitively dependent node whose own
outputs are already present is skipped (reported complete), because
completion is presence-only. -/
theorem claimC6 :
    (∀ (reg : Registry) (impl : Impl) (s : Store) (r : Report) (i d : TaskInstance) (k : TaskKind),
        isComplete reg s i = false → findKind reg i.kind = some k →
        d ∈ directDeps reg i → depOk r d = false →
        execNode reg impl s r i = (s, r ++ [(i, NodeStatus.notRunDepFailed)])) ∧
    (∀ (r : Report) (d : TaskInstance) (m : String),
        reportLookup r d = some (NodeStatus.failed m) → depOk r d = false) ∧
    (∀ (reg : Registry) (impl : Impl) (s : Store) (x : TaskInstance) (ns : List TaskInstance),
        expandTop reg x = Except.ok ns →
        ∃ s1 rep, runTop reg impl s x = (s1, Except.ok rep) ∧ rep.map Prod.fst = ns) ∧
    (runTop failReg failImpl [] iRoot2).2 =
      Except.ok [(iL, NodeStatus.failed "boom"), (iR, NodeStatus.executed),
        (iRoot2, NodeStatus.notRunDepFailed)] := by
  refine ⟨?_, ?_, ?_, rfl⟩
  · intro reg impl s r i d k hc hk hd hdok
    have hdr : depsReady reg r i k = false := by
      by_contra hcon
      rw [Bool.not_eq_false] at hcon
      simp only [directDeps, hk] at hd
      unfold depsReady at hcon
      have h1 := List.all_eq_true.mp hcon d hd
      rw [hdok] at h1
      exact Bool.false_ne_true h1
    exact execNode_depFailed reg impl s r i k hc hk hdr
  · intro r d m h
    unfold depOk
    rw [h]
    rfl
  · intro reg impl s x ns he
    exact ⟨(runFold reg impl s [] ns).1, (runFold reg impl s [] ns).2,
      runTop_ok reg impl s x ns he, by rw [runFold_keys reg impl ns s []]; simp⟩

/-- Counterexample to claim C6 as stated: ChainTop transitively depends
on the failed ChainBot, yet because its own outputs are already present
it is reported skipped (complete), not not-run-dependency-failed. -/
theorem claimC6_counterexample :
    (runTop chainReg chainImpl chainStore iChainTop).2 =
      Except.ok [(iChainBot, NodeStatus.failed "boom"), (iChainTop, NodeStatus.skipped)] ∧
    directDeps chainReg iChainTop = [iChainBot] ∧
    NodeStatus.skipped ≠ NodeStatus.notRunDepFailed :=
  ⟨rfl, rfl, by decide⟩

/-- Witness for claim C6: the stale two-branch root, whose left
dependency is recorded failed, is reported not-run-dependency-failed
with the store untouched. -/
theorem claimC6_witness :
    execNode failReg failImpl sFail [(iL, NodeStatus.failed "boom"), (iR, NodeStatus.executed)] iRoot2 =
      (sFail, [(iL, NodeStatus.failed "boom"), (iR, NodeStatus.executed)] ++
        [(iRoot2, NodeStatus.notRunDepFailed)]) :=
  claimC6.1 failReg failImpl sFail [(iL, NodeStatus.failed "boom"), (iR, NodeStatus.executed)]
    iRoot2 iL { name := "Root2", ownParams := [], deps := ["LeftFeed", "RightFeed"], outputs := ["data"] }
    (by decide) rfl (by decide) (by decide)

/-- Claim C7: a graph-time error aborts the whole run request with the
store untouched and no node executed; a successful expansion contains
no instance that depends (transitively) on itself; and whenever the
requested root is, or transitively derives, an instance that depends
(transitively) on itself — any cycle, direct or indirect, whatever the
kinds' other dependencies — run fails with a CycleError naming an
instance, before any node's run contract executes, provided the
registry is well formed (the root's kind and every declared dependency
kind are registered). -/
theorem claimC7 :
    (∀ (reg : Registry) (impl : Impl) (s : Store) (x : TaskInstance) (e : EngineError),
        expandTop reg x = Except.error e → runTop reg impl s x = (s, Except.error e)) ∧
    (∀ (reg : Registry) (x : TaskInstance) (ns : List TaskInstance),
        expandTop reg x = Except.ok ns → ∀ j ∈ ns, ¬ DependsOn reg j j) ∧
    (∀ (reg : Registry) (impl : Impl) (s : Store) (x j : TaskInstance),
        (j = x ∨ DependsOn reg x j) → DependsOn reg j j →
        regClosed reg = true → (findKind reg x.kind).isSome = true →
        ∃ w, expandTop reg x = Except.error (EngineError.CycleError w) ∧
          runTop reg impl s x = (s, Except.error (EngineError.CycleError w))) := by
  refine ⟨?_, ?_, ?_⟩
  · intro reg impl s x e h
    exact runTop_err reg impl s x e h
  · intro reg x ns h
    exact expandTop_acyclic reg x ns h
  · intro reg impl s x j hxj hcycle hclosed hreg
    cases he : expandTop reg x with
    | ok ns =>
      exfalso
      have hx : x ∈ ns := expandNode_mem reg (reg.length + 1) [] [] x ns he
      have hj : j ∈ ns := by
        rcases hxj with h1 | h1
        · exact h1 ▸ hx
        · exact (expandTop_reaches reg x ns he x j h1 hx).1
      exact expandTop_acyclic reg x ns he j hj hcycle
    | error e =>
      obtain ⟨w, hw⟩ :=
        expandNode_err_cycle reg hclosed (reg.length + 1) [] [] x e he hreg
      subst hw
      exact ⟨w, rfl, runTop_err reg impl s x (EngineError.CycleError w) he⟩

/-- Witness for claim C7: both the direct CycSelf cycle and the
indirect CycA-CycB cycle make run fail with a CycleError on the empty
store, executing nothing. -/
theorem claimC7_witness :
    (∃ w, expandTop cycReg iCyc = Except.error (EngineError.CycleError w) ∧
      runTop cycReg noImpl [] iCyc = ([], Except.error (EngineError.CycleError w))) ∧
    (∃ w, expandTop cyc2Reg iCycA = Except.error (EngineError.CycleError w) ∧
      runTop cyc2Reg noImpl [] iCycA = ([], Except.error (EngineError.CycleError w))) :=
  ⟨claimC7.2.2 cycReg noImpl [] iCyc iCyc (Or.inl rfl)
      (DependsOn.direct (by decide)) (by decide) (by decide),
   claimC7.2.2 cyc2Reg noImpl [] iCycA iCycA (Or.inl rfl)
      (@DependsOn.trans cyc2Reg iCycA iCycB iCycA (by decide) (DependsOn.direct (by decide)))
      (by decide) (by decide)⟩

/-- Claim C8: completion status depends only on the presence of the
instance's own declared outputs in the store, never on stored values,
timestamps or upstream data: two stores agreeing on presence of those
outputs give the same status; concretely, after the GetDataEcon
artifact is overwritten by different upstream data (parameters
unchanged), rerunning the strategy1 root still skips all four nodes. -/
theorem claimC8 :
    (∀ (reg : Registry) (s1 s2 : Store) (i : TaskInstance),
        (∀ o : String, (lookupStore s1 (i.kind, sigOf i, o)).isSome =
          (lookupStore s2 (i.kind, sigOf i, o)).isSome) →
        isComplete reg s1 i = isComplete reg s2 i) ∧
    runTop tradingReg tradingImpl s1mut iBt1 =
      (s1mut, Except.ok [(iEcon1, NodeStatus.skipped), (iTS1, NodeStatus.skipped),
        (iPx1, NodeStatus.skipped), (iBt1, NodeStatus.skipped)]) ∧
    loadOutput s1mut iEcon1 "data" ≠ loadOutput s1run iEcon1 "data" := by
  refine ⟨?_, rfl, by decide⟩
  · intro reg s1 s2 i h
    unfold isComplete
    cases hk : findKind reg i.kind with
    | none => rfl
    | some k => exact allCongr _ _ k.outputs (fun o => by rw [h o])

/-- Witness for claim C8: the mutated and unmutated stores agree on
presence of GetDataEcon's output, so its completion status agrees. -/
theorem claimC8_witness :
    isComplete tradingReg s1mut iEcon1 = isComplete tradingReg s1run iEcon1 :=
  claimC8.1 tradingReg s1mut s1run iEcon1 (by
    intro o
    by_cases h : o = "data"
    · subst h; rfl
    · have hne : ((iEcon1.kind, sigOf iEcon1, "data") : StoreKey) ≠ (iEcon1.kind, sigOf iEcon1, o) := by
        intro hkk
        exact h (congrArg (fun p => p.2.2) hkk).symm
      show (lookupStore s1mut (iEcon1.kind, sigOf iEcon1, o)).isSome =
        (lookupStore s1run (iEcon1.kind, sigOf iEcon1, o)).isSome
      unfold s1mut
      rw [lookupStore_cons_ne _ _ _ hne])

/-- Claim C9: each declared output of an executed node is persisted
under (kind, signature, output name) and loadable independently with
exactly the value the contract returned; and a contract result missing
a declared output fails that node with MissingOutputError, leaving the
store untouched. -/
theorem claimC9 :
    (∀ (i : TaskInstance) (outs : List (String × Nat)) (os : List String) (s : Store)
        (o : String) (v : Nat), o ∈ os → findOut outs o = some v →
        loadOutput (saveAll i outs os s) i o = some v) ∧
    (∀ (reg : Registry) (impl : Impl) (s : Store) (r : Report) (i : TaskInstance) (k : TaskKind)
        (outs : List (String × Nat)),
        isComplete reg s i = false → findKind reg i.kind = some k →
        depsReady reg r i k = true → impl i (depInputs reg s i k) = Except.ok outs →
        outsComplete k outs = false →
        execNode reg impl s r i = (s, r ++ [(i, NodeStatus.failed "MissingOutputError")])) := by
  constructor
  · intro i outs os s o v ho hv
    unfold loadOutput
    exact saveAll_lookup_mem i outs os s o v ho hv
  · intro reg impl s r i k outs hc hk hd him ho
    exact execNode_missingOutput reg impl s r i k outs hc hk hd him ho

/-- Witness for claim C9: the pnl output persists and loads
independently of portfolio, and BadTask, whose contract omits its
declared output b, fails with MissingOutputError. -/
theorem claimC9_witness :
    loadOutput (saveAll iBt1 [("portfolio", 5), ("pnl", 6)] ["portfolio", "pnl"] []) iBt1 "pnl" =
      some 6 ∧
    execNode badReg badImpl [] [] iBad = ([], [] ++ [(iBad, NodeStatus.failed "MissingOutputError")]) :=
  ⟨claimC9.1 iBt1 [("portfolio", 5), ("pnl", 6)] ["portfolio", "pnl"] [] "pnl" 6 (by decide) rfl,
   claimC9.2 badReg badImpl [] [] iBad
     { name := "BadTask", ownParams := [], deps := [], outputs := ["a", "b"] }
     [("a", 1)] rfl rfl rfl rfl rfl⟩

/-- Claim C10: identically-named parameters of a dependency become
parameters of the dependent kind (GetDataPx carries the inherited
date_start and date_end, which its contract reads), a root instance is
built from the union of its own and all transitively inherited
parameter names, and a contract's positional input i is the output of
its i-th declared dependency (Backtest's portfolio combines input 1 =
GetDataPx with input 0 = TradingSignals). -/
theorem claimC10 :
    paramsOf tradingReg "GetDataPx" = ["date_end", "date_start", "symbols"] ∧
    paramsOf tradingReg "Backtest" = ["date_end", "date_start", "lookback_period", "symbols"] ∧
    mkInstance tradingReg "Backtest" strategy1 = some iBt1 ∧
    expandTop tradingReg iBt1 = Except.ok nodes1 ∧
    pval iPx1 "date_start" = canonValue (RawValue.rdate 2018 1 1) ∧
    pval iPx1 "date_end" = canonValue (RawValue.rdate 2020 1 1) ∧
    loadOutput s1run iPx1 "data" =
      some (200 + hashStr (pval iPx1 "symbols") + hashStr (pval iPx1 "date_start") +
        hashStr (pval iPx1 "date_end")) ∧
    (∃ v0 v1, loadOutput s1run iTS1 "data" = some v0 ∧ loadOutput s1run iPx1 "data" = some v1 ∧
      loadOutput s1run iBt1 "portfolio" = some (v1 * 1000 + v0) ∧
      loadOutput s1run iBt1 "pnl" = some (v1 * v0)) := by
  refine ⟨rfl, rfl, rfl, rfl, rfl, rfl, rfl, ?_⟩
  exact ⟨_, _, rfl, rfl, rfl, rfl⟩

end D6t
